import Mathlib

/-!
Shallow embedding of `src/color/color_rate.py`: a similarity scorer between a
user mapping of object labels to color names and reference mappings derived
from JSON detection files, together with the reference aggregator and the
per-source driver resolution.

Python floats are modelled as exact real numbers (`ℝ`), detection confidence
scores as rationals (`ℚ`), Python dicts as association lists in insertion
order, and fallible JSON access as `Except`.
-/

namespace ColorRate

/-- Python's `str.lower()`: lower-case every character (identical to the
Python behavior on the ASCII labels and color names this program handles). -/
def strLower (s : String) : String := ⟨s.data.map Char.toLower⟩

/-- First-match association-list lookup, modelling Python dict lookup
(dict keys are unique, so first match is the only match). -/
def alookup {α : Type} : List (String × α) → String → Option α
  | [], _ => none
  | (k, v) :: rest, key => if k = key then some v else alookup rest key

/-- The fixed color-name → RGB palette `color_to_rgb` from the source,
in the source's order. -/
def color_to_rgb : List (String × (ℤ × ℤ × ℤ)) :=
  [ ("red", (255, 0, 0)),
    ("green", (0, 255, 0)),
    ("blue", (0, 0, 255)),
    ("yellow", (255, 255, 0)),
    ("cyan", (0, 255, 255)),
    ("magenta", (255, 0, 255)),
    ("orange", (255, 165, 0)),
    ("purple", (128, 0, 128)),
    ("pink", (255, 192, 203)),
    ("brown", (165, 42, 42)),
    ("gray", (128, 128, 128)),
    ("grey", (128, 128, 128)),
    ("black", (0, 0, 0)),
    ("white", (255, 255, 255)),
    ("lime", (0, 255, 0)),
    ("navy", (0, 0, 128)),
    ("teal", (0, 128, 128)),
    ("olive", (128, 128, 0)),
    ("maroon", (128, 0, 0)),
    ("silver", (192, 192, 192)),
    ("gold", (255, 215, 0)) ]

/-- RGB of a color name: `color_to_rgb.get(color.lower(), [0, 0, 0])`. -/
def getRgb (color : String) : ℤ × ℤ × ℤ :=
  (alookup color_to_rgb (strLower color)).getD (0, 0, 0)

/-- Squared Euclidean distance between two RGB triples,
`sum((a - b) ** 2 for a, b in zip(rgb1, rgb2))`. -/
def distSq (r1 r2 : ℤ × ℤ × ℤ) : ℤ :=
  (r1.1 - r2.1) ^ 2 + (r1.2.1 - r2.2.1) ^ 2 + (r1.2.2 - r2.2.2) ^ 2

/-- `calculate_color_similarity` from the source: Euclidean RGB distance
normalized by `sqrt(3 * 255^2)`, converted to a similarity and clamped at 0. -/
noncomputable def calculate_color_similarity (color1 color2 : String) : ℝ :=
  let rgb1 := getRgb color1
  let rgb2 := getRgb color2
  let distance : ℝ := Real.sqrt ((distSq rgb1 rgb2 : ℤ) : ℝ)
  let max_distance : ℝ := Real.sqrt ((255 : ℝ) ^ 2 + 255 ^ 2 + 255 ^ 2)
  max 0 (1 - distance / max_distance)

/-- Accumulator state of `calculate_enhanced_similarity`: the running
numerator `matches`, the running denominator `total_comparisons`, and the
per-user-entry similarity list `color_similarities`. -/
structure Acc where
  «matches» : ℝ
  total_comparisons : ℝ
  color_similarities : List ℝ

/-- One iteration of the forward pass of `calculate_enhanced_similarity`
over a `(user_obj, user_color)` item of `dict1`. -/
noncomputable def forwardStep (dict2 : List (String × String)) (acc : Acc)
    (entry : String × String) : Acc :=
  match alookup dict2 (strLower entry.1) with
  | some json_color =>
    if json_color = entry.2 then
      { «matches» := acc.«matches» + 1,
        total_comparisons := acc.total_comparisons + 1,
        color_similarities := acc.color_similarities ++ [1] }
    else
      let color_sim := calculate_color_similarity entry.2 json_color
      { «matches» := acc.«matches» + color_sim * 0.8,
        total_comparisons := acc.total_comparisons + 1,
        color_similarities := acc.color_similarities ++ [color_sim] }
  | none =>
      { acc with total_comparisons := acc.total_comparisons + 1,
                 color_similarities := acc.color_similarities ++ [0] }

/-- One iteration of the reverse pass of `calculate_enhanced_similarity`
over a `(json_obj, json_color)` item of `dict2`. -/
noncomputable def reverseStep (dict1 : List (String × String)) (acc : Acc)
    (entry : String × String) : Acc :=
  if entry.1 ∉ dict1.map (fun p => strLower p.1) then
    if entry.2 ∈ dict1.map Prod.snd then
      { acc with «matches» := acc.«matches» + 0.3,
                 total_comparisons := acc.total_comparisons + 0.3 }
    else acc
  else acc

/-- Accumulator after the forward pass of `calculate_enhanced_similarity`. -/
noncomputable def forwardAcc (dict1 dict2 : List (String × String)) : Acc :=
  dict1.foldl (forwardStep dict2) ⟨0, 0, []⟩

/-- Accumulator after both passes of `calculate_enhanced_similarity`. -/
noncomputable def finalAcc (dict1 dict2 : List (String × String)) : Acc :=
  dict2.foldl (reverseStep dict1) (forwardAcc dict1 dict2)

/-- Values of a JSON document, as produced by `json.load`. -/
inductive Json where
  | jnull
  | jbool (b : Bool)
  | jnum (q : ℚ)
  | jstr (s : String)
  | jarr (elements : List Json)
  | jobj (fields : List (String × Json))

/-- `calculate_enhanced_similarity(dict1, dict2, dict2_rgb)` from the source:
returns the final score together with the per-user-entry similarity list.
The `dict2_rgb` argument is accepted but never read, exactly as in the code. -/
noncomputable def calculate_enhanced_similarity (dict1 dict2 : List (String × String))
    (dict2_rgb : List (String × Json)) : ℝ × List ℝ :=
  if dict1 = [] ∨ dict2 = [] then (0, [])
  else
    let acc := finalAcc dict1 dict2
    (if acc.total_comparisons > 0 then acc.«matches» / acc.total_comparisons else 0,
     acc.color_similarities)

/-- Python subscript `j[key]` on a parsed JSON value: a `KeyError` if the key
is absent, a `TypeError` if the value is not a dict. -/
def Json.idx (j : Json) (key : String) : Except String Json :=
  match j with
  | .jobj fields =>
    match alookup fields key with
    | some v => .ok v
    | none => .error ("KeyError: " ++ key)
  | _ => .error "TypeError: value is not subscriptable"

/-- Python's `.lower()` on a JSON value: only strings have that method. -/
def Json.asString : Json → Except String String
  | .jstr s => .ok s
  | _ => .error "AttributeError: no attribute lower"

/-- A JSON value usable on the right of `int += _`: numbers, and booleans
(which are integers in Python). -/
def Json.asScore : Json → Except String ℚ
  | .jnum q => .ok q
  | .jbool b => .ok (if b then 1 else 0)
  | _ => .error "TypeError: unsupported operand type for +="

/-- Python iteration `for entry in j`: lists yield elements, dicts yield
their keys, strings yield their characters; other values are not iterable. -/
def Json.asIterable : Json → Except String (List Json)
  | .jarr elements => .ok elements
  | .jobj fields => .ok (fields.map (fun kv => Json.jstr kv.1))
  | .jstr s => .ok (s.data.map (fun c => Json.jstr ⟨[c]⟩))
  | _ => .error "TypeError: value is not iterable"

/-- One raw weighted observation read from a reference file, with the fields
extracted by the loop body of `process_json_file` (`obj_class` is already
lower-cased, as in the code). Color names and labels are strings per the
reference-file format; the RGB value is kept as raw JSON, as the code never
inspects it. -/
structure DetectionEntry where
  obj_class : String
  color_name : String
  rgb_values : Json
  score : ℚ

/-- Field extraction for one entry of `json_data['entries']`, in the
source's access order: `class` (lower-cased), `dominant_name`,
`dominant_rgb`, `score`. -/
def parseEntry (entry : Json) : Except String DetectionEntry := do
  let clsJson ← entry.idx "class"
  let cls ← clsJson.asString
  let nameJson ← entry.idx "dominant_name"
  let name ← nameJson.asString
  let rgb ← entry.idx "dominant_rgb"
  let scoreJson ← entry.idx "score"
  let score ← scoreJson.asScore
  .ok ⟨strLower cls, name, rgb, score⟩

/-- `object_color_counts[cls][color] += s` on a `defaultdict(int)`:
an existing key is updated in place, a new key is appended at the end
(dict insertion order). -/
def bumpCount (counts : List (String × ℚ)) (key : String) (amount : ℚ) :
    List (String × ℚ) :=
  match counts with
  | [] => [(key, amount)]
  | (k, v) :: rest =>
    if k = key then (k, v + amount) :: rest else (k, v) :: bumpCount rest key amount

/-- The outer level of `object_color_counts[cls][color] += s`. -/
def bumpOuter (m : List (String × List (String × ℚ))) (cls color : String)
    (s : ℚ) : List (String × List (String × ℚ)) :=
  match m with
  | [] => [(cls, bumpCount [] color s)]
  | (k, inner) :: rest =>
    if k = cls then (k, bumpCount inner color s) :: rest
    else (k, inner) :: bumpOuter rest cls color s

/-- One element of `object_rgb_data[obj_class]`:
`{'rgb': ..., 'color_name': ..., 'score': ...}`. -/
structure RgbEntry where
  rgb : Json
  color_name : String
  score : ℚ

/-- `object_rgb_data[cls].append(e)` on a `defaultdict(list)`. -/
def appendRgb (m : List (String × List RgbEntry)) (cls : String) (e : RgbEntry) :
    List (String × List RgbEntry) :=
  match m with
  | [] => [(cls, [e])]
  | (k, l) :: rest =>
    if k = cls then (k, l ++ [e]) :: rest else (k, l) :: appendRgb rest cls e

/-- The `object_color_counts` accumulation loop of `process_json_file`. -/
def object_color_counts (entries : List DetectionEntry) :
    List (String × List (String × ℚ)) :=
  entries.foldl (fun m e => bumpOuter m e.obj_class e.color_name e.score) []

/-- The `object_rgb_data` accumulation loop of `process_json_file`. -/
def object_rgb_data (entries : List DetectionEntry) :
    List (String × List RgbEntry) :=
  entries.foldl (fun m e => appendRgb m e.obj_class ⟨e.rgb_values, e.color_name, e.score⟩) []

/-- Python's `max(best :: l, key=lambda x: x[1])`: scan left to right,
replacing the current best only on a strictly greater key, so the first
element attaining the maximum wins. -/
def maxBySnd (best : String × ℚ) : List (String × ℚ) → String × ℚ
  | [] => best
  | x :: rest => maxBySnd (if x.2 > best.2 then x else best) rest

/-- `max(color_counts.items(), key=lambda x: x[1])[0]`, guarded by the
source's `if color_counts:` check. -/
def most_common_color (counts : List (String × ℚ)) : Option String :=
  match counts with
  | [] => none
  | c :: rest => some (maxBySnd c rest).1

/-- Python's `max(best :: l, key=lambda x: x['score'])` over RGB entries. -/
def maxByScore (best : RgbEntry) : List RgbEntry → RgbEntry
  | [] => best
  | x :: rest => maxByScore (if x.score > best.score then x else best) rest

/-- The second half of `process_json_file`: per label, pick the color with
the maximal summed score, and the RGB of the entry with the maximal
individual score. -/
def aggregate (entries : List DetectionEntry) :
    List (String × String) × List (String × Json) :=
  let counts := object_color_counts entries
  let rgbData := object_rgb_data entries
  (counts.filterMap (fun p => (most_common_color p.2).map (fun w => (p.1, w))),
   counts.filterMap (fun p =>
     (most_common_color p.2).bind (fun _ =>
       match (alookup rgbData p.1).getD [] with
       | [] => none
       | r :: rest => some (p.1, (maxByScore r rest).rgb))))

/-- One reference source as the driver sees it: the file may be missing
(`FileNotFoundError`), unreadable as JSON (`json.JSONDecodeError`), or a
parsed JSON document. -/
inductive RefInput where
  | missing
  | invalidJson
  | parsed (j : Json)

/-- `process_json_file` from the source: a missing file or invalid JSON is
caught and yields two empty dicts; otherwise the entries are extracted and
aggregated, and any error raised while accessing `json_data['entries']` or
an entry's fields propagates. -/
def process_json_file : RefInput →
    Except String (List (String × String) × List (String × Json))
  | .missing => .ok ([], [])
  | .invalidJson => .ok ([], [])
  | .parsed json_data => do
    let entriesField ← json_data.idx "entries"
    let entryList ← entriesField.asIterable
    let entries ← entryList.mapM parseEntry
    .ok (aggregate entries)

/-- The per-source body of `calculate_similarity_scores_dict`: process the
file, assign `0.0` when the color mapping comes back empty, otherwise score
it against the user mapping. -/
noncomputable def resolve_source (user_dict : List (String × String))
    (input : RefInput) : Except String ℝ := do
  let (json_object_colors, json_object_rgb) ← process_json_file input
  if json_object_colors = [] then .ok 0
  else .ok (calculate_enhanced_similarity user_dict json_object_colors json_object_rgb).1

/-- Sum of the confidence scores of the entries carrying a given label and
color name (the value `object_color_counts[label][color]` is specified to
hold). -/
def sumScores (label color : String) : List DetectionEntry → ℚ
  | [] => 0
  | e :: rest =>
    (if e.obj_class = label ∧ e.color_name = color then e.score else 0) +
      sumScores label color rest

/-- The color names of the entries carrying a given label, in accumulation
(encounter) order, with repetitions. -/
def labelColors (label : String) : List DetectionEntry → List String
  | [] => []
  | e :: rest =>
    if e.obj_class = label then e.color_name :: labelColors label rest
    else labelColors label rest

/-- Deduplication keeping first occurrences: the key order of a dict built
by repeated `d[k] += _` updates. -/
def firstOccur (l : List String) : List String :=
  l.foldl (fun ks c => if c ∈ ks then ks else ks ++ [c]) []

/-- Index of the first occurrence of a string in a list (length of the list
when absent). -/
def firstIdx (c : String) : List String → ℕ
  | [] => 0
  | x :: rest => if x = c then 0 else firstIdx c rest + 1

/-- The similarity value appended for one user entry by the forward pass of
`calculate_enhanced_similarity`. -/
noncomputable def entrySim (dict2 : List (String × String))
    (entry : String × String) : ℝ :=
  match alookup dict2 (strLower entry.1) with
  | some json_color =>
    if json_color = entry.2 then 1 else calculate_color_similarity entry.2 json_color
  | none => 0

/-! ### Basic facts about the color-distance helper -/

lemma calculate_color_similarity_nonneg (a b : String) :
    0 ≤ calculate_color_similarity a b := le_max_left _ _

lemma calculate_color_similarity_le_one (a b : String) :
    calculate_color_similarity a b ≤ 1 := by
  unfold calculate_color_similarity
  refine max_le (by norm_num) ?_
  have h0 : (0 : ℝ) ≤ Real.sqrt ((distSq (getRgb a) (getRgb b) : ℤ) : ℝ) := Real.sqrt_nonneg _
  have h1 : (0 : ℝ) ≤ Real.sqrt ((255 : ℝ) ^ 2 + 255 ^ 2 + 255 ^ 2) := Real.sqrt_nonneg _
  have := div_nonneg h0 h1
  linarith

lemma calculate_color_similarity_of_lower_eq (a b : String)
    (h : strLower a = strLower b) : calculate_color_similarity a b = 1 := by
  have hg : getRgb a = getRgb b := by simp [getRgb, h]
  have hd : distSq (getRgb a) (getRgb b) = 0 := by rw [hg]; simp [distSq]
  simp [calculate_color_similarity, hd]

/-- Claim C9: `colorSimilarity` is symmetric: for every pair of color names
`a` and `b`, `colorSimilarity(a, b)` equals `colorSimilarity(b, a)`. -/
theorem color_similarity_symm (a b : String) :
    calculate_color_similarity a b = calculate_color_similarity b a := by
  have h : distSq (getRgb a) (getRgb b) = distSq (getRgb b) (getRgb a) := by
    unfold distSq; ring
  simp only [calculate_color_similarity, h]

/-- Claim C8: a color name whose lower-cased form is not in the fixed palette
table is treated as RGB `(0, 0, 0)`: its similarity to any name `b` equals
that of `"black"` to `b`, and the similarity of two unknown names is `1.0`. -/
theorem unknown_color_falls_back_to_black (a b : String)
    (ha : alookup color_to_rgb (strLower a) = none) :
    calculate_color_similarity a b = calculate_color_similarity "black" b ∧
    (alookup color_to_rgb (strLower b) = none → calculate_color_similarity a b = 1) := by
  have hga : getRgb a = (0, 0, 0) := by simp [getRgb, ha]
  have hblack : getRgb "black" = (0, 0, 0) := rfl
  constructor
  · unfold calculate_color_similarity
    rw [hga, hblack]
  · intro hb
    have hgb : getRgb b = (0, 0, 0) := by simp [getRgb, hb]
    have hd : distSq (getRgb a) (getRgb b) = 0 := by rw [hga, hgb]; simp [distSq]
    simp [calculate_color_similarity, hd]

/-- Witness for C8 at a concrete unknown name: `"blurple"` is not in the
palette, compares like `"black"`, and two unknown names give similarity 1. -/
theorem unknown_color_falls_back_to_black_witness :
    calculate_color_similarity "blurple" "red" = calculate_color_similarity "black" "red" ∧
    calculate_color_similarity "blurple" "mauve" = 1 :=
  ⟨(unknown_color_falls_back_to_black "blurple" "red" (by decide)).1,
   (unknown_color_falls_back_to_black "blurple" "mauve" (by decide)).2 (by decide)⟩

/-- Claim C7: the scorer's output is independent of its RGB argument: for any
two RGB mappings `r1` and `r2`, `calculate_enhanced_similarity` returns the
same scalar score and per-entry list. -/
theorem score_ignores_rgb_argument (dict1 dict2 : List (String × String))
    (r1 r2 : List (String × Json)) :
    calculate_enhanced_similarity dict1 dict2 r1 =
      calculate_enhanced_similarity dict1 dict2 r2 := rfl

/-! ### Invariants of the two scoring passes -/

lemma forwardStep_bounds (dict2 : List (String × String)) (acc : Acc)
    (e : String × String) (h0 : 0 ≤ acc.«matches»)
    (h1 : acc.«matches» ≤ acc.total_comparisons) :
    0 ≤ (forwardStep dict2 acc e).«matches» ∧
      (forwardStep dict2 acc e).«matches» ≤ (forwardStep dict2 acc e).total_comparisons := by
  unfold forwardStep
  rcases alookup dict2 (strLower e.1) with _ | c
  · refine ⟨?_, ?_⟩ <;> dsimp only <;> linarith
  · dsimp only
    by_cases hc : c = e.2
    · rw [if_pos hc]
      refine ⟨?_, ?_⟩ <;> dsimp only <;> linarith
    · rw [if_neg hc]
      have hs0 := calculate_color_similarity_nonneg e.2 c
      have hs1 := calculate_color_similarity_le_one e.2 c
      refine ⟨?_, ?_⟩ <;> dsimp only <;> linarith

lemma forwardStep_total (dict2 : List (String × String)) (acc : Acc)
    (e : String × String) :
    (forwardStep dict2 acc e).total_comparisons = acc.total_comparisons + 1 := by
  unfold forwardStep
  cases alookup dict2 (strLower e.1) with
  | none => rfl
  | some c => by_cases hc : c = e.2 <;> simp [hc]

lemma forwardStep_sims (dict2 : List (String × String)) (acc : Acc)
    (e : String × String) :
    (forwardStep dict2 acc e).color_similarities =
      acc.color_similarities ++ [entrySim dict2 e] := by
  unfold forwardStep entrySim
  cases alookup dict2 (strLower e.1) with
  | none => rfl
  | some c => by_cases hc : c = e.2 <;> simp [hc]

lemma forward_fold_bounds (dict2 : List (String × String)) :
    ∀ (dict1 : List (String × String)) (acc : Acc), 0 ≤ acc.«matches» →
      acc.«matches» ≤ acc.total_comparisons →
      0 ≤ (dict1.foldl (forwardStep dict2) acc).«matches» ∧
        (dict1.foldl (forwardStep dict2) acc).«matches» ≤
          (dict1.foldl (forwardStep dict2) acc).total_comparisons
  | [], acc, h0, h1 => ⟨h0, h1⟩
  | e :: rest, acc, h0, h1 => by
    have hstep := forwardStep_bounds dict2 acc e h0 h1
    exact forward_fold_bounds dict2 rest (forwardStep dict2 acc e) hstep.1 hstep.2

lemma forward_fold_total (dict2 : List (String × String)) :
    ∀ (dict1 : List (String × String)) (acc : Acc),
      (dict1.foldl (forwardStep dict2) acc).total_comparisons =
        acc.total_comparisons + dict1.length
  | [], acc => by simp
  | e :: rest, acc => by
    have := forward_fold_total dict2 rest (forwardStep dict2 acc e)
    simp only [List.foldl_cons, this, forwardStep_total, List.length_cons]
    push_cast
    ring

lemma forward_fold_sims (dict2 : List (String × String)) :
    ∀ (dict1 : List (String × String)) (acc : Acc),
      (dict1.foldl (forwardStep dict2) acc).color_similarities =
        acc.color_similarities ++ dict1.map (entrySim dict2)
  | [], acc => by simp
  | e :: rest, acc => by
    have := forward_fold_sims dict2 rest (forwardStep dict2 acc e)
    simp [List.foldl_cons, this, forwardStep_sims]

lemma reverseStep_cases (dict1 : List (String × String)) (acc : Acc)
    (e : String × String) :
    reverseStep dict1 acc e = acc ∨
      reverseStep dict1 acc e =
        { acc with «matches» := acc.«matches» + 0.3,
                   total_comparisons := acc.total_comparisons + 0.3 } := by
  unfold reverseStep
  split_ifs <;> simp

lemma reverse_fold_bounds (dict1 : List (String × String)) :
    ∀ (dict2 : List (String × String)) (acc : Acc), 0 ≤ acc.«matches» →
      acc.«matches» ≤ acc.total_comparisons →
      0 ≤ (dict2.foldl (reverseStep dict1) acc).«matches» ∧
        (dict2.foldl (reverseStep dict1) acc).«matches» ≤
          (dict2.foldl (reverseStep dict1) acc).total_comparisons
  | [], acc, h0, h1 => ⟨h0, h1⟩
  | e :: rest, acc, h0, h1 => by
    rcases reverseStep_cases dict1 acc e with h | h
    · rw [List.foldl_cons, h]
      exact reverse_fold_bounds dict1 rest acc h0 h1
    · rw [List.foldl_cons, h]
      exact reverse_fold_bounds dict1 rest _ (by simp; linarith) (by simp; linarith)

lemma reverse_fold_total_ge (dict1 : List (String × String)) :
    ∀ (dict2 : List (String × String)) (acc : Acc),
      acc.total_comparisons ≤ (dict2.foldl (reverseStep dict1) acc).total_comparisons
  | [], acc => le_refl _
  | e :: rest, acc => by
    rcases reverseStep_cases dict1 acc e with h | h
    · rw [List.foldl_cons, h]
      exact reverse_fold_total_ge dict1 rest acc
    · rw [List.foldl_cons, h]
      refine le_trans ?_ (reverse_fold_total_ge dict1 rest _)
      simp
      linarith

lemma reverse_fold_sims (dict1 : List (String × String)) :
    ∀ (dict2 : List (String × String)) (acc : Acc),
      (dict2.foldl (reverseStep dict1) acc).color_similarities = acc.color_similarities
  | [], _ => rfl
  | e :: rest, acc => by
    rcases reverseStep_cases dict1 acc e with h | h <;>
      rw [List.foldl_cons, h] <;> exact reverse_fold_sims dict1 rest _

lemma finalAcc_bounds (dict1 dict2 : List (String × String)) :
    0 ≤ (finalAcc dict1 dict2).«matches» ∧
      (finalAcc dict1 dict2).«matches» ≤ (finalAcc dict1 dict2).total_comparisons := by
  have h := forward_fold_bounds dict2 dict1 ⟨0, 0, []⟩ (le_refl 0) (le_refl 0)
  exact reverse_fold_bounds dict1 dict2 (forwardAcc dict1 dict2) h.1 h.2

lemma forwardAcc_total (dict1 dict2 : List (String × String)) :
    (forwardAcc dict1 dict2).total_comparisons = dict1.length := by
  have := forward_fold_total dict2 dict1 ⟨0, 0, []⟩
  simpa [forwardAcc] using this

lemma finalAcc_total_ge (dict1 dict2 : List (String × String)) :
    (dict1.length : ℝ) ≤ (finalAcc dict1 dict2).total_comparisons := by
  have h := reverse_fold_total_ge dict1 dict2 (forwardAcc dict1 dict2)
  rw [forwardAcc_total] at h
  exact h

/-- Claim C5: for every user mapping and reference mapping (and RGB mapping),
the scalar returned by the scorer lies in `[0, 1]`, reverse-pass bonus
contributions included. -/
theorem score_mem_unit_interval (dict1 dict2 : List (String × String))
    (dict2_rgb : List (String × Json)) :
    0 ≤ (calculate_enhanced_similarity dict1 dict2 dict2_rgb).1 ∧
      (calculate_enhanced_similarity dict1 dict2 dict2_rgb).1 ≤ 1 := by
  unfold calculate_enhanced_similarity
  split_ifs with hdeg
  · norm_num
  · have hb := finalAcc_bounds dict1 dict2
    by_cases ht : (finalAcc dict1 dict2).total_comparisons > 0
    · simp only [if_pos ht]
      exact ⟨div_nonneg hb.1 (le_of_lt ht), (div_le_one ht).mpr hb.2⟩
    · simp only [if_neg ht]
      norm_num

/-- Claim C10: when both mappings are non-empty, the denominator after the
forward pass equals (hence is at least) the number of user entries, the
final denominator is strictly positive, and the returned score is the
actual quotient, never the zero-denominator fallback. -/
theorem forward_total_positive (dict1 dict2 : List (String × String))
    (dict2_rgb : List (String × Json)) (h1 : dict1 ≠ []) (h2 : dict2 ≠ []) :
    (forwardAcc dict1 dict2).total_comparisons = dict1.length ∧
    (dict1.length : ℝ) ≤ (finalAcc dict1 dict2).total_comparisons ∧
    0 < (finalAcc dict1 dict2).total_comparisons ∧
    (calculate_enhanced_similarity dict1 dict2 dict2_rgb).1 =
      (finalAcc dict1 dict2).«matches» / (finalAcc dict1 dict2).total_comparisons := by
  have hlen : (0 : ℝ) < dict1.length := by
    have : dict1.length ≠ 0 := fun h => h1 (List.eq_nil_of_length_eq_zero h)
    exact_mod_cast Nat.pos_of_ne_zero this
  have htot := finalAcc_total_ge dict1 dict2
  have hpos : 0 < (finalAcc dict1 dict2).total_comparisons := lt_of_lt_of_le hlen htot
  refine ⟨forwardAcc_total dict1 dict2, htot, hpos, ?_⟩
  have hne : ¬(dict1 = [] ∨ dict2 = []) := by simp [h1, h2]
  unfold calculate_enhanced_similarity
  rw [if_neg hne]
  dsimp only
  rw [if_pos hpos]

/-- Witness for C10 at a concrete non-empty pair of mappings. -/
theorem forward_total_positive_witness :
    (forwardAcc [("a", "red")] [("b", "blue")]).total_comparisons = 1 ∧
    (1 : ℝ) ≤ (finalAcc [("a", "red")] [("b", "blue")]).total_comparisons ∧
    0 < (finalAcc [("a", "red")] [("b", "blue")]).total_comparisons ∧
    (calculate_enhanced_similarity [("a", "red")] [("b", "blue")] []).1 =
      (finalAcc [("a", "red")] [("b", "blue")]).«matches» /
        (finalAcc [("a", "red")] [("b", "blue")]).total_comparisons := by
  have h := forward_total_positive [("a", "red")] [("b", "blue")] []
    (by decide) (by decide)
  simpa using h

/-- Claim C2, counterexample to the stated behavior: with
`user = {"x": "red"}` and `reference = {}` the code takes the degenerate
branch and returns `(0.0, [])`, not the claimed `[0.0]`; in particular the
per-entry list does not have `len(user)` elements here. -/
theorem sims_list_empty_reference_example :
    calculate_enhanced_similarity [("x", "red")] [] [] = (0, []) ∧
    (calculate_enhanced_similarity [("x", "red")] [] []).2 ≠ [0] ∧
    (calculate_enhanced_similarity [("x", "red")] [] []).2.length ≠
      [("x", "red")].length := by
  refine ⟨by simp [calculate_enhanced_similarity], ?_, ?_⟩ <;>
    simp [calculate_enhanced_similarity]

/-- Claim C2 as amended: when both mappings are non-empty, the per-entry
similarity list is exactly the image of the user's entries, in the user's
iteration order, under the per-entry similarity; in particular it has
`len(user)` elements. (When the reference is empty and the user is not, the
degenerate branch instead returns the empty list.) -/
theorem sims_list_matches_user_order (dict1 dict2 : List (String × String))
    (dict2_rgb : List (String × Json)) (h1 : dict1 ≠ []) (h2 : dict2 ≠ []) :
    (calculate_enhanced_similarity dict1 dict2 dict2_rgb).2 =
      dict1.map (entrySim dict2) ∧
    (calculate_enhanced_similarity dict1 dict2 dict2_rgb).2.length = dict1.length := by
  have hsims : (finalAcc dict1 dict2).color_similarities =
      dict1.map (entrySim dict2) := by
    have hr := reverse_fold_sims dict1 dict2 (forwardAcc dict1 dict2)
    have hf := forward_fold_sims dict2 dict1 ⟨0, 0, []⟩
    unfold finalAcc
    rw [hr]
    unfold forwardAcc
    simpa using hf
  have hmain : (calculate_enhanced_similarity dict1 dict2 dict2_rgb).2 =
      dict1.map (entrySim dict2) := by
    have hne : ¬(dict1 = [] ∨ dict2 = []) := by simp [h1, h2]
    unfold calculate_enhanced_similarity
    rw [if_neg hne]
    exact hsims
  exact ⟨hmain, by rw [hmain, List.length_map]⟩

/-- Witness for C2 (amended) at a concrete non-empty pair of mappings. -/
theorem sims_list_matches_user_order_witness :
    (calculate_enhanced_similarity [("a", "red")] [("b", "blue")] []).2 =
      [("a", "red")].map (entrySim [("b", "blue")]) ∧
    (calculate_enhanced_similarity [("a", "red")] [("b", "blue")] []).2.length = 1 := by
  have h := sims_list_matches_user_order [("a", "red")] [("b", "blue")] []
    (by decide) (by decide)
  simpa using h

/-! ### Case sensitivity of the exact-match test -/

/-- Claim C4, counterexample to the stated behavior: the exact-match test
`dict2[user_obj_lower] == user_color` is case-sensitive. For
`user = {"a": "RED"}` and `reference = {"a": "red"}` the entry is routed to
the partial-credit branch, so the score is `0.8`, not the `1.0` an exact
match (numerator contribution `1.0`) would give. -/
theorem case_differing_exact_match_example :
    (calculate_enhanced_similarity [("a", "RED")] [("a", "red")] []).1 = 0.8 ∧
    (calculate_enhanced_similarity [("a", "RED")] [("a", "red")] []).1 ≠ 1 := by
  have h1 : strLower "a" = "a" := rfl
  have h2 : calculate_color_similarity "RED" "red" = 1 :=
    calculate_color_similarity_of_lower_eq _ _ rfl
  constructor <;>
    simp [calculate_enhanced_similarity, finalAcc, forwardAcc, forwardStep,
      reverseStep, alookup, h1, h2] <;>
    norm_num

/-- Claim C4 as amended: when the normalized user label is present in the
reference and the two colors agree up to letter case, the entry is an exact
match (contributing `1.0` / `1.0` and appending `1.0`) only when the color
strings are exactly equal; when they differ in case the entry takes the
partial-credit branch, whose color similarity is `1.0` (lookups are
case-insensitive), so it contributes `0.8` to the numerator, `1.0` to the
denominator, and appends `1.0` to the per-entry list. -/
theorem forward_contribution_cases (dict2 : List (String × String)) (acc : Acc)
    (l c c' : String) (hlook : alookup dict2 (strLower l) = some c')
    (hcase : strLower c' = strLower c) :
    (c' = c → forwardStep dict2 acc (l, c) =
      ⟨acc.«matches» + 1, acc.total_comparisons + 1, acc.color_similarities ++ [1]⟩) ∧
    (c' ≠ c → forwardStep dict2 acc (l, c) =
      ⟨acc.«matches» + 0.8, acc.total_comparisons + 1, acc.color_similarities ++ [1]⟩) := by
  have hsim : calculate_color_similarity c c' = 1 :=
    calculate_color_similarity_of_lower_eq c c' hcase.symm
  unfold forwardStep
  dsimp only
  rw [hlook]
  dsimp only
  constructor
  · intro h
    rw [if_pos h]
  · intro h
    rw [if_neg h]
    rw [hsim]
    norm_num

/-- Witness for C4 (amended): the `user` entry `("A", "RED")` takes the
partial-credit branch against reference `{"a": "red"}` (case-differing
colors) and the exact branch against `{"a": "RED"}` (identical colors). -/
theorem forward_contribution_cases_witness :
    forwardStep [("a", "red")] ⟨0, 0, []⟩ ("A", "RED") =
      ⟨0 + 0.8, 0 + 1, [] ++ [1]⟩ ∧
    forwardStep [("a", "RED")] ⟨0, 0, []⟩ ("A", "RED") =
      ⟨0 + 1, 0 + 1, [] ++ [1]⟩ :=
  ⟨(forward_contribution_cases [("a", "red")] ⟨0, 0, []⟩ "A" "RED" "red"
      (by decide) (by decide)).2 (by decide),
   (forward_contribution_cases [("a", "RED")] ⟨0, 0, []⟩ "A" "RED" "RED"
      (by decide) (by decide)).1 rfl⟩

/-! ### The reverse-pass bonus and the final ratio -/

lemma alookup_append {α : Type} (l1 l2 : List (String × α)) (k : String) :
    alookup (l1 ++ l2) k =
      match alookup l1 k with
      | some v => some v
      | none => alookup l2 k := by
  induction l1 with
  | nil => simp [alookup]
  | cons p rest ih =>
    by_cases hk : p.1 = k <;> simp [alookup, hk, ih]

lemma forwardStep_append_fresh (dict2 : List (String × String))
    (e : String × String) (acc : Acc) (p : String × String)
    (h : strLower p.1 ≠ e.1) :
    forwardStep (dict2 ++ [e]) acc p = forwardStep dict2 acc p := by
  have hlk : alookup (dict2 ++ [e]) (strLower p.1) = alookup dict2 (strLower p.1) := by
    rw [alookup_append]
    cases alookup dict2 (strLower p.1) with
    | some v => rfl
    | none =>
      have hne : e.1 ≠ strLower p.1 := fun hh => h hh.symm
      show alookup [e] (strLower p.1) = none
      simp [alookup, hne]
  unfold forwardStep
  rw [hlk]

lemma forward_fold_append_fresh (dict2 : List (String × String))
    (e : String × String) :
    ∀ (dict1 : List (String × String)) (acc : Acc),
      e.1 ∉ dict1.map (fun p => strLower p.1) →
      dict1.foldl (forwardStep (dict2 ++ [e])) acc =
        dict1.foldl (forwardStep dict2) acc
  | [], _, _ => rfl
  | p :: rest, acc, h => by
    have hp : strLower p.1 ≠ e.1 := by
      intro hh
      exact h (by simp [hh.symm])
    have hrest : e.1 ∉ rest.map (fun q => strLower q.1) := by
      intro hh
      exact h (by simp [hh])
    rw [List.foldl_cons, List.foldl_cons, forwardStep_append_fresh dict2 e acc p hp]
    exact forward_fold_append_fresh dict2 e rest _ hrest

lemma reverseStep_qualifying (dict1 : List (String × String)) (acc : Acc)
    (e : String × String) (h1 : e.1 ∉ dict1.map (fun p => strLower p.1))
    (h2 : e.2 ∈ dict1.map Prod.snd) :
    reverseStep dict1 acc e =
      { acc with «matches» := acc.«matches» + 0.3,
                 total_comparisons := acc.total_comparisons + 0.3 } := by
  unfold reverseStep
  rw [if_pos h1, if_pos h2]

/-- Claim C1, counterexample to the stated behavior: appending the
qualifying reverse-pass entry `("c", "blue")` (label absent from the user,
color present among the user's values) to the reference changes the final
score, because `(m + 0.3) / (t + 0.3) ≠ m / t` whenever `m ≠ t`. Here the
score moves from `1/2` to `1.3/2.3`. -/
theorem reverse_bonus_changes_score_example :
    (calculate_enhanced_similarity [("a", "red"), ("b", "blue")]
        ([("a", "red")] ++ [("c", "blue")]) []).1 ≠
      (calculate_enhanced_similarity [("a", "red"), ("b", "blue")]
        [("a", "red")] []).1 := by
  have h1 : strLower "a" = "a" := rfl
  have h2 : strLower "b" = "b" := rfl
  simp [calculate_enhanced_similarity, finalAcc, forwardAcc, forwardStep,
    reverseStep, alookup, h1, h2]
  norm_num

/-- Claim C1 as amended: appending a qualifying reverse-pass bonus entry
(fresh label, color predicted somewhere by the user) adds `0.3` to both the
numerator and the denominator, so the new score is
`(m + 0.3) / (t + 0.3)`; this equals the old score `m / t` exactly when
`m = t` (that is, when the score is already `1`), and changes the score
otherwise — the `0.3`/`0.3` contributions do not cancel in the ratio. -/
theorem reverse_bonus_shifts_ratio (dict1 dict2 : List (String × String))
    (dict2_rgb : List (String × Json)) (e : String × String)
    (h1 : dict1 ≠ []) (h2 : dict2 ≠ [])
    (hfresh_user : e.1 ∉ dict1.map (fun p => strLower p.1))
    (hfresh_ref : e.1 ∉ dict2.map Prod.fst)
    (hcolor : e.2 ∈ dict1.map Prod.snd) :
    (calculate_enhanced_similarity dict1 (dict2 ++ [e]) dict2_rgb).1 =
      ((finalAcc dict1 dict2).«matches» + 0.3) /
        ((finalAcc dict1 dict2).total_comparisons + 0.3) ∧
    ((calculate_enhanced_similarity dict1 (dict2 ++ [e]) dict2_rgb).1 =
        (calculate_enhanced_similarity dict1 dict2 dict2_rgb).1 ↔
      (finalAcc dict1 dict2).«matches» = (finalAcc dict1 dict2).total_comparisons) := by
  have hfinal : finalAcc dict1 (dict2 ++ [e]) =
      { finalAcc dict1 dict2 with
          «matches» := (finalAcc dict1 dict2).«matches» + 0.3,
          total_comparisons := (finalAcc dict1 dict2).total_comparisons + 0.3 } := by
    unfold finalAcc
    rw [List.foldl_append]
    unfold forwardAcc
    rw [forward_fold_append_fresh dict2 e dict1 _ hfresh_user]
    exact reverseStep_qualifying dict1 _ e hfresh_user hcolor
  set M := (finalAcc dict1 dict2).«matches» with hM
  set T := (finalAcc dict1 dict2).total_comparisons with hT
  have hlen : (1 : ℝ) ≤ dict1.length := by
    have : dict1.length ≠ 0 := fun h => h1 (List.eq_nil_of_length_eq_zero h)
    exact_mod_cast Nat.one_le_iff_ne_zero.mpr this
  have hTpos : 0 < T := lt_of_lt_of_le (by linarith) (finalAcc_total_ge dict1 dict2)
  have hbase : (calculate_enhanced_similarity dict1 dict2 dict2_rgb).1 = M / T :=
    (forward_total_positive dict1 dict2 dict2_rgb h1 h2).2.2.2
  have hnew : (calculate_enhanced_similarity dict1 (dict2 ++ [e]) dict2_rgb).1 =
      (M + 0.3) / (T + 0.3) := by
    have hne : dict2 ++ [e] ≠ [] := by simp
    have := (forward_total_positive dict1 (dict2 ++ [e]) dict2_rgb h1 hne).2.2.2
    rw [this, hfinal]
  refine ⟨hnew, ?_⟩
  rw [hnew, hbase]
  have hT3 : (0 : ℝ) < T + 0.3 := by linarith
  rw [div_eq_div_iff hT3.ne' hTpos.ne']
  constructor
  · intro h
    nlinarith
  · intro h
    rw [h]
    ring

/-- Witness for C1 (amended) at a concrete qualifying entry: user
`{"a": "red"}`, reference `{"a": "red"}`, appended entry `("c", "red")`. -/
theorem reverse_bonus_shifts_ratio_witness :
    (calculate_enhanced_similarity [("a", "red")] ([("a", "red")] ++ [("c", "red")]) []).1 =
      ((finalAcc [("a", "red")] [("a", "red")]).«matches» + 0.3) /
        ((finalAcc [("a", "red")] [("a", "red")]).total_comparisons + 0.3) ∧
    ((calculate_enhanced_similarity [("a", "red")] ([("a", "red")] ++ [("c", "red")]) []).1 =
        (calculate_enhanced_similarity [("a", "red")] [("a", "red")] []).1 ↔
      (finalAcc [("a", "red")] [("a", "red")]).«matches» =
        (finalAcc [("a", "red")] [("a", "red")]).total_comparisons) :=
  reverse_bonus_shifts_ratio [("a", "red")] [("a", "red")] [] ("c", "red")
    (by decide) (by decide) (by decide) (by decide) (by decide)

/-! ### Error handling of the aggregator and the driver -/

/-- Claim C3, counterexample to the stated behavior: a reference input that
parses as JSON but lacks the `entries` structure is malformed content, yet
the code raises a `KeyError` that propagates out of `process_json_file` and
out of the driver's per-source resolution, instead of yielding an empty
mapping and a `0.0` score. -/
theorem malformed_json_error_propagates :
    process_json_file (.parsed (Json.jobj [])) = .error "KeyError: entries" ∧
    resolve_source [("x", "red")] (.parsed (Json.jobj [])) =
      .error "KeyError: entries" :=
  ⟨rfl, rfl⟩

/-- Claim C3 as amended: a reference input that is missing
(`FileNotFoundError`) or unparseable as JSON (`json.JSONDecodeError`)
yields empty mappings with no error propagated, and the driver resolves
such a source to a score of exactly `0.0`; parseable JSON lacking the
expected structure instead raises an error that propagates to the caller. -/
theorem missing_or_invalid_source_scores_zero (user_dict : List (String × String)) :
    process_json_file .missing = .ok ([], []) ∧
    process_json_file .invalidJson = .ok ([], []) ∧
    resolve_source user_dict .missing = .ok 0 ∧
    resolve_source user_dict .invalidJson = .ok 0 :=
  ⟨rfl, rfl, rfl, rfl⟩

/-! ### The aggregator's weighted-majority choice -/

lemma alookup_eq_none_iff {α : Type} (l : List (String × α)) (k : String) :
    alookup l k = none ↔ k ∉ l.map Prod.fst := by
  induction l with
  | nil => simp [alookup]
  | cons p rest ih =>
    by_cases hk : p.1 = k
    · simp [alookup, hk]
    · simp [alookup, hk, ih, Ne.symm hk]

lemma alookup_of_mem_nodup {α : Type} {l : List (String × α)} {k : String} {v : α}
    (hnd : (l.map Prod.fst).Nodup) (hm : (k, v) ∈ l) : alookup l k = some v := by
  induction l with
  | nil => simp at hm
  | cons p rest ih =>
    rcases List.mem_cons.mp hm with hm | hm
    · rw [← hm]
      simp [alookup]
    · have hk : k ∈ rest.map Prod.fst := by
        exact List.mem_map.mpr ⟨(k, v), hm, rfl⟩
      have hne : p.1 ≠ k := by
        intro hh
        exact (List.nodup_cons.mp hnd).1 (hh ▸ hk)
      simp only [alookup, if_neg hne]
      exact ih (List.nodup_cons.mp hnd).2 hm

lemma alookup_bumpCount (inner : List (String × ℚ)) (key : String) (d : ℚ)
    (k : String) :
    alookup (bumpCount inner key d) k =
      if k = key then some ((alookup inner k).getD 0 + d) else alookup inner k := by
  induction inner with
  | nil =>
    by_cases hk : k = key
    · simp [bumpCount, alookup, hk]
    · simp [bumpCount, alookup, hk, Ne.symm hk]
  | cons p rest ih =>
    by_cases hpk : p.1 = key
    · by_cases hk : k = key
      · have : p.1 = k := by rw [hpk, hk]
        simp [bumpCount, alookup, hpk, hk, this]
      · have : p.1 ≠ k := by rw [hpk]; exact fun hh => hk hh.symm
        simp [bumpCount, alookup, hpk, hk, this, Ne.symm hk]
    · by_cases hpkk : p.1 = k
      · have : k ≠ key := by rw [← hpkk]; exact hpk
        simp [bumpCount, alookup, hpk, hpkk, this]
      · simp [bumpCount, alookup, hpk, hpkk, ih]

lemma keys_bumpCount (inner : List (String × ℚ)) (key : String) (d : ℚ) :
    (bumpCount inner key d).map Prod.fst =
      if key ∈ inner.map Prod.fst then inner.map Prod.fst
      else inner.map Prod.fst ++ [key] := by
  induction inner with
  | nil => simp [bumpCount]
  | cons p rest ih =>
    by_cases hpk : p.1 = key
    · simp [bumpCount, hpk]
    · have hne : ¬(key = p.1) := fun hh => hpk hh.symm
      by_cases hmem : key ∈ rest.map Prod.fst <;>
        simp [bumpCount, hpk, ih, hne, hmem]

lemma alookup_bumpOuter (m : List (String × List (String × ℚ)))
    (cls color : String) (s : ℚ) (k : String) :
    alookup (bumpOuter m cls color s) k =
      if k = cls then some (bumpCount ((alookup m cls).getD []) color s)
      else alookup m k := by
  induction m with
  | nil =>
    by_cases hk : k = cls
    · simp [bumpOuter, alookup, hk]
    · simp [bumpOuter, alookup, hk, Ne.symm hk]
  | cons p rest ih =>
    by_cases hpc : p.1 = cls
    · by_cases hk : k = cls
      · have : p.1 = k := by rw [hpc, hk]
        simp [bumpOuter, alookup, hpc, hk, this]
      · have : p.1 ≠ k := by rw [hpc]; exact fun hh => hk hh.symm
        simp [bumpOuter, alookup, hpc, hk, this, Ne.symm hk]
    · by_cases hpkk : p.1 = k
      · have : k ≠ cls := by rw [← hpkk]; exact hpc
        simp [bumpOuter, alookup, hpc, hpkk, this]
      · simp [bumpOuter, alookup, hpc, hpkk, ih]

lemma keys_bumpOuter (m : List (String × List (String × ℚ)))
    (cls color : String) (s : ℚ) :
    (bumpOuter m cls color s).map Prod.fst =
      if cls ∈ m.map Prod.fst then m.map Prod.fst
      else m.map Prod.fst ++ [cls] := by
  induction m with
  | nil => simp [bumpOuter]
  | cons p rest ih =>
    by_cases hpc : p.1 = cls
    · simp [bumpOuter, hpc]
    · have hne : ¬(cls = p.1) := fun hh => hpc hh.symm
      by_cases hmem : cls ∈ rest.map Prod.fst <;>
        simp [bumpOuter, hpc, ih, hne, hmem]

lemma alookup_mem {α : Type} : ∀ {l : List (String × α)} {k : String} {v : α},
    alookup l k = some v → (k, v) ∈ l
  | [], _, _, h => by simp [alookup] at h
  | p :: rest, k, v, h => by
    by_cases hk : p.1 = k
    · rw [alookup, if_pos hk] at h
      have : p = (k, v) := by
        obtain ⟨p1, p2⟩ := p
        simp_all
      simp [this]
    · rw [alookup, if_neg hk] at h
      exact List.mem_cons_of_mem _ (alookup_mem h)

/-- The per-label slice of the nested `object_color_counts` accumulation:
the inner `defaultdict(int)` that ends up stored under `label`. -/
def innerCounts (label : String) (entries : List DetectionEntry) :
    List (String × ℚ) :=
  entries.foldl
    (fun inner e =>
      if e.obj_class = label then bumpCount inner e.color_name e.score else inner)
    []

lemma counts_fold_lookup (label : String) :
    ∀ (entries : List DetectionEntry) (m : List (String × List (String × ℚ))),
      alookup (entries.foldl
          (fun mm e => bumpOuter mm e.obj_class e.color_name e.score) m) label =
        if alookup m label = none ∧ labelColors label entries = [] then none
        else some (entries.foldl
          (fun inner e =>
            if e.obj_class = label then bumpCount inner e.color_name e.score else inner)
          ((alookup m label).getD []))
  | [], m => by
    cases h : alookup m label <;> simp [labelColors, h]
  | e :: rest, m => by
    have ih := counts_fold_lookup label rest
      (bumpOuter m e.obj_class e.color_name e.score)
    rw [List.foldl_cons] at *
    by_cases hcls : e.obj_class = label
    · have hbump : alookup (bumpOuter m e.obj_class e.color_name e.score) label =
          some (bumpCount ((alookup m label).getD []) e.color_name e.score) := by
        rw [alookup_bumpOuter, if_pos hcls.symm, hcls]
      rw [ih, hbump]
      have hlc : labelColors label (e :: rest) =
          e.color_name :: labelColors label rest := by
        simp [labelColors, hcls]
      simp [hlc, hcls]
    · have hbump : alookup (bumpOuter m e.obj_class e.color_name e.score) label =
          alookup m label := by
        rw [alookup_bumpOuter, if_neg (fun hh => hcls hh.symm)]
      have hlc : labelColors label (e :: rest) = labelColors label rest := by
        simp [labelColors, hcls]
      rw [ih, hbump]
      simp [hlc, hcls]

lemma object_color_counts_lookup (entries : List DetectionEntry) (label : String) :
    alookup (object_color_counts entries) label =
      if labelColors label entries = [] then none
      else some (innerCounts label entries) := by
  have h := counts_fold_lookup label entries []
  unfold object_color_counts innerCounts
  simpa [alookup] using h

lemma counts_fold_keys_nodup :
    ∀ (entries : List DetectionEntry) (m : List (String × List (String × ℚ))),
      (m.map Prod.fst).Nodup →
      ((entries.foldl
          (fun mm e => bumpOuter mm e.obj_class e.color_name e.score) m).map
        Prod.fst).Nodup
  | [], _, h => h
  | e :: rest, m, h => by
    rw [List.foldl_cons]
    refine counts_fold_keys_nodup rest _ ?_
    rw [keys_bumpOuter]
    by_cases hmem : e.obj_class ∈ m.map Prod.fst
    · rw [if_pos hmem]; exact h
    · rw [if_neg hmem]
      simp [List.nodup_append, h, hmem]

lemma object_color_counts_keys_nodup (entries : List DetectionEntry) :
    ((object_color_counts entries).map Prod.fst).Nodup :=
  counts_fold_keys_nodup entries [] (by simp)

lemma inner_fold_lookup (label : String) :
    ∀ (entries : List DetectionEntry) (inner : List (String × ℚ)) (c : String),
      alookup (entries.foldl
          (fun acc e =>
            if e.obj_class = label then bumpCount acc e.color_name e.score else acc)
          inner) c =
        if alookup inner c = none ∧ c ∉ labelColors label entries then none
        else some ((alookup inner c).getD 0 + sumScores label c entries)
  | [], inner, c => by
    cases h : alookup inner c <;> simp [labelColors, sumScores, h]
  | e :: rest, inner, c => by
    rw [List.foldl_cons]
    by_cases hcls : e.obj_class = label
    · rw [if_pos hcls]
      have ih := inner_fold_lookup label rest (bumpCount inner e.color_name e.score) c
      rw [ih]
      by_cases hc : c = e.color_name
      · have hbc : alookup (bumpCount inner e.color_name e.score) c =
            some ((alookup inner c).getD 0 + e.score) := by
          rw [alookup_bumpCount, if_pos hc]
        have hlc : labelColors label (e :: rest) =
            e.color_name :: labelColors label rest := by
          simp [labelColors, hcls]
        have hsum : sumScores label c (e :: rest) = e.score + sumScores label c rest := by
          simp [sumScores, hcls, hc.symm]
        rw [hbc, hlc, hsum]
        have hmem : c ∈ e.color_name :: labelColors label rest := by
          simp [hc]
        simp only [if_neg (by simp [hmem] : ¬(alookup inner c = none ∧
          c ∉ e.color_name :: labelColors label rest))]
        simp only [if_neg (by simp : ¬((some ((alookup inner c).getD 0 + e.score) :
          Option ℚ) = none ∧ c ∉ labelColors label rest))]
        congr 1
        simp
        ring
      · have hbc : alookup (bumpCount inner e.color_name e.score) c =
            alookup inner c := by
          rw [alookup_bumpCount, if_neg hc]
        have hlc : labelColors label (e :: rest) =
            e.color_name :: labelColors label rest := by
          simp [labelColors, hcls]
        have hsum : sumScores label c (e :: rest) = sumScores label c rest := by
          have : ¬(e.obj_class = label ∧ e.color_name = c) := by
            intro hh
            exact hc hh.2.symm
          simp [sumScores, this]
        rw [hbc, hlc, hsum]
        have hiff : c ∉ e.color_name :: labelColors label rest ↔
            c ∉ labelColors label rest := by
          simp [hc]
        by_cases hcases : alookup inner c = none ∧ c ∉ labelColors label rest
        · rw [if_pos hcases, if_pos ⟨hcases.1, hiff.mpr hcases.2⟩]
        · rw [if_neg hcases, if_neg (fun hh => hcases ⟨hh.1, hiff.mp hh.2⟩)]
    · rw [if_neg hcls]
      have ih := inner_fold_lookup label rest inner c
      rw [ih]
      have hlc : labelColors label (e :: rest) = labelColors label rest := by
        simp [labelColors, hcls]
      have hsum : sumScores label c (e :: rest) = sumScores label c rest := by
        have : ¬(e.obj_class = label ∧ e.color_name = c) := fun hh => hcls hh.1
        simp [sumScores, this]
      rw [hlc, hsum]

lemma inner_fold_keys (label : String) :
    ∀ (entries : List DetectionEntry) (inner : List (String × ℚ)),
      ((entries.foldl
          (fun acc e =>
            if e.obj_class = label then bumpCount acc e.color_name e.score else acc)
          inner).map Prod.fst) =
        (labelColors label entries).foldl
          (fun ks c => if c ∈ ks then ks else ks ++ [c]) (inner.map Prod.fst)
  | [], inner => by simp [labelColors]
  | e :: rest, inner => by
    rw [List.foldl_cons]
    by_cases hcls : e.obj_class = label
    · rw [if_pos hcls]
      have ih := inner_fold_keys label rest (bumpCount inner e.color_name e.score)
      rw [ih, keys_bumpCount]
      have hlc : labelColors label (e :: rest) =
          e.color_name :: labelColors label rest := by
        simp [labelColors, hcls]
      rw [hlc, List.foldl_cons]
    · rw [if_neg hcls]
      have ih := inner_fold_keys label rest inner
      have hlc : labelColors label (e :: rest) = labelColors label rest := by
        simp [labelColors, hcls]
      rw [ih, hlc]

lemma innerCounts_keys (label : String) (entries : List DetectionEntry) :
    (innerCounts label entries).map Prod.fst = firstOccur (labelColors label entries) := by
  have h := inner_fold_keys label entries []
  simpa [innerCounts, firstOccur] using h

lemma mem_firstOccur_fold :
    ∀ (l ks : List String) (a : String),
      a ∈ l.foldl (fun ks c => if c ∈ ks then ks else ks ++ [c]) ks ↔ a ∈ ks ∨ a ∈ l
  | [], ks, a => by simp
  | x :: rest, ks, a => by
    rw [List.foldl_cons]
    by_cases hx : x ∈ ks
    · rw [if_pos hx, mem_firstOccur_fold rest ks a]
      constructor
      · rintro (h | h)
        · exact Or.inl h
        · exact Or.inr (List.mem_cons_of_mem _ h)
      · rintro (h | h)
        · exact Or.inl h
        · rcases List.mem_cons.mp h with h | h
          · exact Or.inl (h ▸ hx)
          · exact Or.inr h
    · rw [if_neg hx, mem_firstOccur_fold rest (ks ++ [x]) a]
      simp [or_assoc, List.mem_cons]

lemma nodup_firstOccur_fold :
    ∀ (l ks : List String), ks.Nodup →
      (l.foldl (fun ks c => if c ∈ ks then ks else ks ++ [c]) ks).Nodup
  | [], _, h => h
  | x :: rest, ks, h => by
    rw [List.foldl_cons]
    by_cases hx : x ∈ ks
    · rw [if_pos hx]
      exact nodup_firstOccur_fold rest ks h
    · rw [if_neg hx]
      exact nodup_firstOccur_fold rest _ (by simp [List.nodup_append, h, hx])

lemma mem_firstOccur (l : List String) (a : String) : a ∈ firstOccur l ↔ a ∈ l := by
  unfold firstOccur
  rw [mem_firstOccur_fold]
  simp

lemma firstOccur_nodup (l : List String) : (firstOccur l).Nodup :=
  nodup_firstOccur_fold l [] (by simp)

lemma firstOccur_append_single (l : List String) (x : String) :
    firstOccur (l ++ [x]) =
      if x ∈ l then firstOccur l else firstOccur l ++ [x] := by
  have key : firstOccur (l ++ [x]) =
      if x ∈ firstOccur l then firstOccur l else firstOccur l ++ [x] := by
    show (l ++ [x]).foldl (fun ks c => if c ∈ ks then ks else ks ++ [c]) [] = _
    rw [List.foldl_append]
    rfl
  rw [key]
  by_cases hx : x ∈ l
  · rw [if_pos hx, if_pos ((mem_firstOccur l x).mpr hx)]
  · rw [if_neg hx, if_neg (fun hh => hx ((mem_firstOccur l x).mp hh))]

lemma firstIdx_append (a : String) :
    ∀ (l1 l2 : List String),
      firstIdx a (l1 ++ l2) =
        if a ∈ l1 then firstIdx a l1 else l1.length + firstIdx a l2
  | [], l2 => by simp [firstIdx]
  | x :: rest, l2 => by
    by_cases hx : x = a
    · simp [firstIdx, hx]
    · have hmem : a ∈ x :: rest ↔ a ∈ rest := by
        simp only [List.mem_cons]
        constructor
        · rintro (h | h)
          · exact absurd h.symm hx
          · exact h
        · exact fun h => Or.inr h
      rw [List.cons_append]
      rw [firstIdx, if_neg hx, firstIdx_append a rest l2]
      by_cases hr : a ∈ rest
      · rw [if_pos hr, firstIdx, if_neg hx]
        rw [if_pos (hmem.mpr hr)]
      · rw [if_neg hr, if_neg (fun hh => hr (hmem.mp hh))]
        simp [List.length_cons]
        omega

lemma firstIdx_lt_length (a : String) :
    ∀ (l : List String), a ∈ l → firstIdx a l < l.length
  | [], h => by simp at h
  | x :: rest, h => by
    by_cases hx : x = a
    · simp [firstIdx, hx]
    · rcases List.mem_cons.mp h with hh | hh
      · exact absurd hh.symm hx
      · rw [firstIdx, if_neg hx, List.length_cons]
        exact Nat.succ_lt_succ (firstIdx_lt_length a rest hh)

lemma firstOccur_sorted_by_firstIdx (l : List String) :
    (firstOccur l).Pairwise (fun a b => firstIdx a l < firstIdx b l) := by
  induction l using List.reverseRecOn with
  | nil => simp [firstOccur]
  | append_singleton l x ih =>
    rw [firstOccur_append_single]
    by_cases hx : x ∈ l
    · rw [if_pos hx]
      refine List.Pairwise.imp_of_mem ?_ ih
      intro a b ha hb hab
      have ha' := (mem_firstOccur l a).mp ha
      have hb' := (mem_firstOccur l b).mp hb
      rw [firstIdx_append a l [x], if_pos ha', firstIdx_append b l [x], if_pos hb']
      exact hab
    · rw [if_neg hx]
      rw [List.pairwise_append]
      refine ⟨?_, by simp, ?_⟩
      · refine List.Pairwise.imp_of_mem ?_ ih
        intro a b ha hb hab
        have ha' := (mem_firstOccur l a).mp ha
        have hb' := (mem_firstOccur l b).mp hb
        rw [firstIdx_append a l [x], if_pos ha', firstIdx_append b l [x], if_pos hb']
        exact hab
      · intro a ha b hb
        have ha' := (mem_firstOccur l a).mp ha
        have hb' : b = x := by simpa using hb
        subst hb'
        rw [firstIdx_append a l [b], if_pos ha', firstIdx_append b l [b], if_neg hx]
        have h1 := firstIdx_lt_length a l ha'
        have h2 : firstIdx b [b] = 0 := by simp [firstIdx]
        omega

lemma le_maxBySnd : ∀ (l : List (String × ℚ)) (best : String × ℚ),
    best.2 ≤ (maxBySnd best l).2
  | [], _ => le_refl _
  | x :: rest, best => by
    rw [maxBySnd]
    by_cases hx : x.2 > best.2
    · rw [if_pos hx]
      exact le_trans (le_of_lt hx) (le_maxBySnd rest x)
    · rw [if_neg hx]
      exact le_maxBySnd rest best

lemma maxBySnd_split : ∀ (l : List (String × ℚ)) (best : String × ℚ),
    ∃ pre post, best :: l = pre ++ maxBySnd best l :: post ∧
      (∀ p ∈ pre, p.2 < (maxBySnd best l).2) ∧
      (∀ p ∈ post, p.2 ≤ (maxBySnd best l).2)
  | [], best => ⟨[], [], rfl, by simp, by simp⟩
  | x :: rest, best => by
    rw [maxBySnd]
    by_cases hx : x.2 > best.2
    · rw [if_pos hx]
      obtain ⟨pre, post, heq, hpre, hpost⟩ := maxBySnd_split rest x
      refine ⟨best :: pre, post, ?_, ?_, hpost⟩
      · rw [List.cons_append, ← heq]
      · intro p hp
        rcases List.mem_cons.mp hp with hp | hp
        · have hxm := le_maxBySnd rest x
          rw [hp]
          linarith
        · exact hpre p hp
    · rw [if_neg hx]
      obtain ⟨pre, post, heq, hpre, hpost⟩ := maxBySnd_split rest best
      cases pre with
      | nil =>
        have h1 : maxBySnd best rest = best := by
          have := (List.cons.injEq best rest (maxBySnd best rest) post).mp ?_
          · exact this.1.symm
          · simpa using heq
        refine ⟨[], x :: rest, ?_, by simp, ?_⟩
        · rw [h1]
          rfl
        · intro p hp
          rcases List.mem_cons.mp hp with hp | hp
          · rw [hp, h1]
            linarith
          · have hrest : post = rest := by
              have := (List.cons.injEq best rest (maxBySnd best rest) post).mp
                (by simpa using heq)
              exact this.2.symm
            exact hpost p (hrest ▸ hp)
      | cons q pre' =>
        have heq' : best = q ∧ rest = pre' ++ maxBySnd best rest :: post := by
          have := (List.cons.injEq best rest q
            (pre' ++ maxBySnd best rest :: post)).mp (by simpa using heq)
          exact this
        refine ⟨best :: x :: pre', post, ?_, ?_, hpost⟩
        · rw [List.cons_append, List.cons_append, ← heq'.2]
        · intro p hp
          have hbest : best.2 < (maxBySnd best rest).2 := by
            have := hpre q (by simp)
            rw [← heq'.1] at this
            exact this
          rcases List.mem_cons.mp hp with hp | hp
          · rw [hp]; exact hbest
          · rcases List.mem_cons.mp hp with hp | hp
            · rw [hp]; linarith
            · exact hpre p (by simp [hp])

/-- Claim C6: for every sequence of detection entries and every distinct
case-normalized label, a winning color reported by the aggregator for that
label carries the largest summed confidence score among all colors observed
for that label, and any color first encountered earlier than the winner has
a strictly smaller sum — ties are broken in favor of the color first
encountered during accumulation. -/
theorem aggregator_winner_spec (entries : List DetectionEntry) (label w : String)
    (hw : (label, w) ∈ (aggregate entries).1) :
    w ∈ labelColors label entries ∧
    (∀ c ∈ labelColors label entries,
      sumScores label c entries ≤ sumScores label w entries) ∧
    (∀ c ∈ labelColors label entries,
      sumScores label c entries = sumScores label w entries →
      firstIdx w (labelColors label entries) ≤ firstIdx c (labelColors label entries)) := by
  have hw' : (label, w) ∈ (object_color_counts entries).filterMap
      (fun p => (most_common_color p.2).map (fun c => (p.1, c))) := hw
  obtain ⟨p, hp, hfp⟩ := List.mem_filterMap.mp hw'
  obtain ⟨w', hmcc, hpair⟩ := Option.map_eq_some'.mp hfp
  obtain ⟨h1, h2⟩ := Prod.ext_iff.mp hpair
  dsimp only at h1 h2
  subst h2
  have hnd := object_color_counts_keys_nodup entries
  have hlk : alookup (object_color_counts entries) label = some p.2 := by
    apply alookup_of_mem_nodup hnd
    have hpe : (label, p.2) = p := by rw [← h1]
    rw [hpe]
    exact hp
  rw [object_color_counts_lookup] at hlk
  by_cases hlc : labelColors label entries = []
  · rw [if_pos hlc] at hlk
    cases hlk
  rw [if_neg hlc] at hlk
  have hcs : innerCounts label entries = p.2 := Option.some.inj hlk
  have hmcc' : most_common_color (innerCounts label entries) = some w' := by
    rw [hcs]
    exact hmcc
  cases hcse : innerCounts label entries with
  | nil =>
    rw [hcse] at hmcc'
    simp [most_common_color] at hmcc'
  | cons c0 rest =>
    rw [hcse] at hmcc'
    have hw_eq : (maxBySnd c0 rest).1 = w' := by
      simpa [most_common_color] using hmcc'
    obtain ⟨pre, post, heq, hpre, hpost⟩ := maxBySnd_split rest c0
    have hkeys : (c0 :: rest).map Prod.fst = firstOccur (labelColors label entries) := by
      rw [← hcse]
      exact innerCounts_keys label entries
    have hknodup : ((c0 :: rest).map Prod.fst).Nodup := by
      rw [hkeys]
      exact firstOccur_nodup _
    have hval : ∀ c ∈ labelColors label entries,
        alookup (c0 :: rest) c = some (sumScores label c entries) := by
      intro c hc
      have h6 : alookup (innerCounts label entries) c =
          if alookup ([] : List (String × ℚ)) c = none ∧
              c ∉ labelColors label entries then none
          else some ((alookup ([] : List (String × ℚ)) c).getD 0 +
            sumScores label c entries) :=
        inner_fold_lookup label entries [] c
      rw [hcse, if_neg (fun hh => hh.2 hc)] at h6
      simpa [alookup] using h6
    have hpair_val : ∀ q ∈ c0 :: rest, q.2 = sumScores label q.1 entries := by
      intro q hq
      have hq1 : q.1 ∈ (c0 :: rest).map Prod.fst := List.mem_map.mpr ⟨q, hq, rfl⟩
      rw [hkeys] at hq1
      have hq_lc : q.1 ∈ labelColors label entries := (mem_firstOccur _ _).mp hq1
      have ha : alookup (c0 :: rest) q.1 = some q.2 :=
        alookup_of_mem_nodup hknodup hq
      have hb := hval q.1 hq_lc
      rw [ha] at hb
      exact Option.some.inj hb
    have hr_mem : maxBySnd c0 rest ∈ c0 :: rest := by
      rw [heq]
      simp
    have hr_val : (maxBySnd c0 rest).2 = sumScores label w' entries := by
      have := hpair_val _ hr_mem
      rw [hw_eq] at this
      exact this
    have hw_lc : w' ∈ labelColors label entries := by
      rw [← hw_eq]
      apply (mem_firstOccur _ _).mp
      rw [← hkeys]
      exact List.mem_map.mpr ⟨_, hr_mem, rfl⟩
    refine ⟨hw_lc, ?_, ?_⟩
    · intro c hc
      have hcm : (c, sumScores label c entries) ∈ c0 :: rest := alookup_mem (hval c hc)
      rw [heq] at hcm
      rcases List.mem_append.mp hcm with hcm | hcm
      · have hlt := hpre _ hcm
        rw [hr_val] at hlt
        exact le_of_lt hlt
      · rcases List.mem_cons.mp hcm with hcm | hcm
        · have : sumScores label c entries = (maxBySnd c0 rest).2 :=
            congrArg Prod.snd hcm
          rw [hr_val] at this
          exact le_of_eq this
        · have hle := hpost _ hcm
          rw [hr_val] at hle
          exact hle
    · intro c hc htie
      have hcm : (c, sumScores label c entries) ∈ c0 :: rest := alookup_mem (hval c hc)
      rw [heq] at hcm
      rcases List.mem_append.mp hcm with hcm | hcm
      · exfalso
        have hlt := hpre _ hcm
        rw [hr_val] at hlt
        dsimp only at hlt
        linarith [htie]
      · rcases List.mem_cons.mp hcm with hcm | hcm
        · have hcw : c = w' := by
            have := congrArg Prod.fst hcm
            dsimp only at this
            rw [hw_eq] at this
            exact this
          rw [hcw]
        · have hporder := firstOccur_sorted_by_firstIdx (labelColors label entries)
          rw [← hkeys] at hporder
          have hmap : (c0 :: rest).map Prod.fst =
              pre.map Prod.fst ++ (maxBySnd c0 rest).1 :: post.map Prod.fst := by
            rw [heq]
            simp
          rw [hmap] at hporder
          have h2 := (List.pairwise_append.mp hporder).2.1
          have h3 := (List.pairwise_cons.mp h2).1
          have hcpost : c ∈ post.map Prod.fst := List.mem_map.mpr ⟨_, hcm, rfl⟩
          have hfin := h3 c hcpost
          rw [hw_eq] at hfin
          exact le_of_lt hfin

/-- Witness for C6 at a concrete tie: two entries give label `"cat"` the
colors `red` (score 2) and `blue` (score 2); the tied winner is `red`, the
color first encountered. -/
theorem aggregator_winner_spec_witness :
    "red" ∈ labelColors "cat"
      [⟨"cat", "red", Json.jnull, 2⟩, ⟨"cat", "blue", Json.jnull, 2⟩] ∧
    sumScores "cat" "blue"
        [⟨"cat", "red", Json.jnull, 2⟩, ⟨"cat", "blue", Json.jnull, 2⟩] ≤
      sumScores "cat" "red"
        [⟨"cat", "red", Json.jnull, 2⟩, ⟨"cat", "blue", Json.jnull, 2⟩] ∧
    firstIdx "red" (labelColors "cat"
        [⟨"cat", "red", Json.jnull, 2⟩, ⟨"cat", "blue", Json.jnull, 2⟩]) ≤
      firstIdx "blue" (labelColors "cat"
        [⟨"cat", "red", Json.jnull, 2⟩, ⟨"cat", "blue", Json.jnull, 2⟩]) := by
  have hagg : (aggregate
      [⟨"cat", "red", Json.jnull, 2⟩, ⟨"cat", "blue", Json.jnull, 2⟩]).1 =
      [("cat", "red")] := by
    norm_num +decide [aggregate, object_color_counts, object_rgb_data, bumpOuter,
      bumpCount, most_common_color, maxBySnd, maxByScore, appendRgb, alookup]
  have h := aggregator_winner_spec
    [⟨"cat", "red", Json.jnull, 2⟩, ⟨"cat", "blue", Json.jnull, 2⟩] "cat" "red"
    (by rw [hagg]; exact List.mem_singleton.mpr rfl)
  refine ⟨h.1, h.2.1 "blue" (by norm_num +decide [labelColors]), h.2.2 "blue"
    (by norm_num +decide [labelColors]) (by norm_num +decide [sumScores])⟩

end ColorRate
